import Mathlib

/- Shallow embedding of the stream kernel and bot runtime of the
   satori-video-sdk-cpp repository.

   Sources embedded here:
   - src/streams_impl.h   (reactive streams kernel: async publisher,
     generator publisher with of/range, take, flat_map, do_finally, map)
   - src/video_bot.cpp    (bot runtime: message buffering and flushing)
   - src/rtmclient.cpp    (bus client state machine)

   Modelling conventions: pure data, machine integers as Int/Nat,
   the single-threaded reactor as sequential execution.  Downstream
   demand arrives at quiescent points (between drain loops), which is
   how the cooperative reactor delivers it. -/

namespace Streams

/-! ### async publisher: async_publisher_impl (streams_impl.h, lines 64-103)

The subscription keeps an `outstanding` demand counter (atomic<long>).
`request(n)` adds `n` (line 76).  `on_next` does `fetch_sub(1)`; when the
old value is non-positive the counter is restored and the item is dropped,
otherwise the item is delivered downstream (lines 80-87). -/

/-- Events reaching async_publisher_impl::sub: a downstream request(n) or an
out-of-band emission attempt from the captured observer. -/
inductive AsyncEv where
  | req (n : Nat)
  | emit
deriving DecidableEq

/-- One event step of async_publisher_impl::sub.  Returns the new value of
the outstanding counter and whether the emitted item was delivered. -/
def asyncStep (outstanding : Int) : AsyncEv → Int × Bool
  | .req n => (outstanding + n, false)
  | .emit => if outstanding ≤ 0 then (outstanding, false) else (outstanding - 1, true)

/-- Runs a sequence of events through async_publisher_impl::sub, counting
delivered items. -/
def asyncRun (outstanding : Int) : List AsyncEv → Int × Nat
  | [] => (outstanding, 0)
  | e :: es =>
    let p := asyncStep outstanding e
    let r := asyncRun p.1 es
    (r.1, (if p.2 then 1 else 0) + r.2)

/-- Total demand requested by a sequence of events. -/
def asyncRequested : List AsyncEv → Nat
  | [] => 0
  | .req n :: es => n + asyncRequested es
  | .emit :: es => asyncRequested es

/-- Items delivered by a fresh async subscription (outstanding starts at 0)
over a sequence of events. -/
def asyncDelivered (es : List AsyncEv) : Nat := (asyncRun 0 es).2

/-- Transcribes async_publisher_impl::sub::cancel (line 78), whose body is
BOOST_ASSERT_MSG(false, "not implemented"). -/
inductive CancelOutcome where
  | ok
  | assertionFailure
deriving DecidableEq

/-- Outcome of calling cancel() on the async publisher subscription
(streams_impl.h line 78). -/
def asyncSubCancel : CancelOutcome := .assertionFailure

end Streams

namespace RtmClient

/-! ### bus client: secure_client (rtmclient.cpp, lines 173-452)

The client keeps `_client_state` (line 438) with values Stopped, Running,
PendingStopped.  `start()` (lines 188-214) runs BOOST_VERIFY(_client_state
== Stopped) and ends in Running; `stop()` (lines 216-224) runs
BOOST_VERIFY(_client_state == Running) and ends in PendingStopped.
A failed BOOST_VERIFY is modelled as `none`. -/

/-- Values of secure_client::_client_state (rtmclient.cpp line 437). -/
inductive ClientState where
  | stopped
  | running
  | pendingStopped
deriving DecidableEq

/-- secure_client::start (rtmclient.cpp lines 188-214): verifies the state is
Stopped, then connects and moves to Running.  Any other starting state fails
the BOOST_VERIFY. -/
def clientStart : ClientState → Option ClientState
  | .stopped => some .running
  | .running => none
  | .pendingStopped => none

/-- secure_client::stop (rtmclient.cpp lines 216-224): verifies the state is
Running, then moves to PendingStopped and closes the socket.  Any other
starting state fails the BOOST_VERIFY. -/
def clientStop : ClientState → Option ClientState
  | .stopped => none
  | .running => some .pendingStopped
  | .pendingStopped => none

end RtmClient

namespace BotRuntime

/-! ### bot runtime: bot_environment (video_bot.cpp, lines 165-207)

`store_bot_message` (lines 202-207) increments the cbor reference count of
the message and appends it to the context's buffer.  `send_message`
(lines 182-192) publishes ANALYSIS messages to channel + "/analysis" and
DEBUG messages to channel + "/debug" — the switch has no CONTROL case —
and then decrements the reference count.  `send_messages` (lines 194-200)
walks the buffer in order and clears it.  cbor items are identified by a
Nat key; reference counts live in a map from key to Int. -/

/-- bot_message_kind (include/librtmvideo/video_bot.h line 79). -/
inductive BotMessageKind where
  | analysis
  | debug
  | control
deriving DecidableEq

/-- bot_message: a kind together with the cbor item it carries (the item is
identified by a Nat key). -/
structure BotMessage where
  kind : BotMessageKind
  data : Nat
deriving DecidableEq

/-- Channel suffix constants (src/satori_video.h lines 13-30). -/
def analysisChannelSuffix : String := "/analysis"

/-- Channel suffix for debug output (src/satori_video.h line 30). -/
def debugChannelSuffix : String := "/debug"

/-- Channel suffix for control commands (src/satori_video.h line 13). -/
def controlChannelSuffix : String := "/control"

/-- State of the bot environment relevant to message buffering: cbor
reference counts, the context's message buffer, and the list of performed
publishes (channel, item). -/
structure BotEnv where
  rc : Nat → Int
  buffer : List BotMessage
  published : List (String × Nat)

/-- Adjusts a reference count map at one key. -/
def rcAdj (rc : Nat → Int) (m : Nat) (d : Int) : Nat → Int :=
  fun x => if x = m then rc x + d else rc x

/-- bot_environment::store_bot_message (video_bot.cpp lines 202-207):
cbor_incref then push_back onto the buffer. -/
def storeBotMessage (env : BotEnv) (kind : BotMessageKind) (m : Nat) : BotEnv :=
  { env with rc := rcAdj env.rc m 1, buffer := env.buffer ++ [⟨kind, m⟩] }

/-- Publishes performed by bot_environment::send_message (video_bot.cpp
lines 182-192) for one message: the switch publishes ANALYSIS to
channel + "/analysis" and DEBUG to channel + "/debug"; there is no case
for CONTROL, so a CONTROL message produces no publish. -/
def sendMessagePublishes (channel : String) (m : BotMessage) : List (String × Nat) :=
  match m.kind with
  | .analysis => [(channel ++ analysisChannelSuffix, m.data)]
  | .debug => [(channel ++ debugChannelSuffix, m.data)]
  | .control => []

/-- bot_environment::send_message (video_bot.cpp lines 182-192): performs
the switch's publish, then cbor_decref on the message. -/
def sendMessage (channel : String) (env : BotEnv) (m : BotMessage) : BotEnv :=
  { env with
    published := env.published ++ sendMessagePublishes channel m,
    rc := rcAdj env.rc m.data (-1) }

/-- bot_environment::send_messages (video_bot.cpp lines 194-200): iterates
over the buffer in order, sending each message, then clears the buffer. -/
def sendMessages (channel : String) (env : BotEnv) : BotEnv :=
  { env.buffer.foldl (sendMessage channel) env with buffer := [] }

/-- Spec-side description of the flush (spec section 4.2, image sink): every
buffered message is published, in buffer order, to the channel formed by
appending the kind's suffix. -/
def specFlushPublishes (channel : String) : List BotMessage → List (String × Nat)
  | [] => []
  | m :: rest =>
    (channel ++ (match m.kind with
                 | .analysis => analysisChannelSuffix
                 | .debug => debugChannelSuffix
                 | .control => controlChannelSuffix), m.data)
      :: specFlushPublishes channel rest

/-- Buffering performed during one user-callback invocation: each message
the callback passes to rtm_video_bot_message is stored in order. -/
def storeAll (env : BotEnv) (ms : List (BotMessageKind × Nat)) : BotEnv :=
  ms.foldl (fun e km => storeBotMessage e km.1 km.2) env

/-- One frame-callback cycle (bot_environment::on_frame_data, video_bot.cpp
lines 165-180): the user callback buffers messages via rtm_video_bot_message
(store_bot_message), then send_messages flushes the buffer. -/
def frameCycle (channel : String) (env : BotEnv) (ms : List (BotMessageKind × Nat)) :
    BotEnv :=
  sendMessages channel (storeAll env ms)

/-- Amended description of the flush: ANALYSIS and DEBUG messages are
published, in buffer order, to the suffixed channels; CONTROL messages are
dropped from the publish stream. -/
def amendedFlushPublishes (channel : String) : List BotMessage → List (String × Nat)
  | [] => []
  | m :: rest => sendMessagePublishes channel m ++ amendedFlushPublishes channel rest

end BotRuntime

namespace Streams

/-! ### generator publisher with the `of` generator
(streams_impl.h: generator_publisher lines 168-246, of_impl lines 119-137)

The generator subscription keeps `_outstanding` and an `_active` flag.
`request(n)` adds n and runs the drain loop (lines 184-189), which calls
the generator function while active with positive outstanding demand
(lines 191-206).  The `of` generator function (lines 128-136) emits
min(demand, remaining) items — each `on_next` decrements `_outstanding`
(lines 215-218) — and calls `on_complete` exactly when the data is
exhausted.  Hence one generator call per request suffices: afterwards
either the data is exhausted (complete, active := false) or outstanding
is zero.  The vector-plus-index state is modelled as the remaining list. -/

/-- State of a generator subscription running the `of` generator: remaining
data, the _active flag, plus observation counters for delivered items and
complete events. -/
structure OfState (T : Type) where
  data : List T
  active : Bool
  emitted : List T
  completes : Nat
deriving DecidableEq

/-- Initial state of `of(data)` right after subscribe (lines 238-242: the
subscription is handed over, nothing has been emitted). -/
def ofInit (data : List T) : OfState T :=
  { data := data, active := true, emitted := [], completes := 0 }

/-- One downstream request(k) against the `of` generator subscription,
derived from request/drain (lines 184-206) with the of generator function
(lines 128-136): emits min(k, remaining) items and completes exactly when
the data runs out. -/
def ofRequest (s : OfState T) (k : Nat) : OfState T :=
  if s.active = false ∨ k = 0 then s
  else
    { data := s.data.drop k,
      active := !(s.data.length ≤ k : Bool),
      emitted := s.emitted ++ s.data.take k,
      completes := s.completes + (if s.data.length ≤ k then 1 else 0) }

/-- Runs a schedule of downstream requests against `of(data)`. -/
def ofRun (data : List T) (ds : List Nat) : OfState T :=
  ds.foldl ofRequest (ofInit data)

/-- generator_publisher::sub::cancel (lines 208-213): sets _active to false
and releases the subscription; no downstream event is delivered. -/
def ofCancel (s : OfState T) : OfState T :=
  { s with active := false }

/-! ### take operator over an `of` upstream
(streams_impl.h: take_op lines 468-527)

take_op::instance keeps `_remaining` and `_outstanding`.  `request(n)`
forwards `actual = min(n, _remaining - _outstanding)` upstream (lines
508-512).  `on_next` forwards the item, decrements both counters, and when
_remaining hits zero cancels upstream and then calls on_complete, which
forwards complete downstream and deletes the instance (lines 482-501).
Composed with a synchronous `of` upstream and demand arriving at quiescent
points, `_outstanding` is zero whenever a request arrives, so one request
forwards `actual = min(k, _remaining)` upstream and the upstream generator
call plays out synchronously.

One subtlety is transcribed faithfully: the of generator's trailing
exhaustion check (line 133) runs even when take cancelled the upstream
during the emission loop, so when take's last item coincides with the
upstream's last item an extra on_complete is delivered to the already
deleted take instance (a use-after-free in the C++); these are counted in
`lateCompletes`. -/

/-- Composed state of `of(data) >> take(n)`.  `rem` is take's _remaining,
`alive` is whether the take instance still exists, `upActive` whether the
upstream generator is still active, and `log` records every upstream
request as (amount requested, items emitted downstream before it). -/
structure TakeOfState (T : Type) where
  data : List T
  rem : Nat
  alive : Bool
  upActive : Bool
  cancels : Nat
  completes : Nat
  lateCompletes : Nat
  emitted : List T
  log : List (Nat × Nat)
deriving DecidableEq

/-- Initial state of `of(data) >> take(n)` after subscribing. -/
def takeOfInit (n : Nat) (data : List T) : TakeOfState T :=
  { data := data, rem := n, alive := true, upActive := true, cancels := 0,
    completes := 0, lateCompletes := 0, emitted := [], log := [] }

/-- One downstream request(k) against `of(data) >> take(n)` at quiescence.
Branches, in order: forwarded demand zero (nothing happens); take's count
exhausted by this batch (cancel upstream, complete downstream, die, plus a
late complete when the upstream data ran out at the same item); upstream
exhausted below take's count (upstream complete forwarded, die); otherwise
both stay live. -/
def takeOfRequest (s : TakeOfState T) (k : Nat) : TakeOfState T :=
  if s.alive = false then s
  else if min k s.rem = 0 then
    { s with log := s.log ++ [(min k s.rem, s.emitted.length)] }
  else if s.rem ≤ (s.data.take (min k s.rem)).length then
    { data := s.data.drop (min k s.rem),
      rem := s.rem - (s.data.take (min k s.rem)).length,
      alive := false, upActive := false,
      cancels := s.cancels + 1, completes := s.completes + 1,
      lateCompletes := s.lateCompletes +
        (if (s.data.drop (min k s.rem)).isEmpty then 1 else 0),
      emitted := s.emitted ++ s.data.take (min k s.rem),
      log := s.log ++ [(min k s.rem, s.emitted.length)] }
  else if (s.data.drop (min k s.rem)).isEmpty then
    { data := s.data.drop (min k s.rem),
      rem := s.rem - (s.data.take (min k s.rem)).length,
      alive := false, upActive := false,
      cancels := s.cancels, completes := s.completes + 1,
      lateCompletes := s.lateCompletes,
      emitted := s.emitted ++ s.data.take (min k s.rem),
      log := s.log ++ [(min k s.rem, s.emitted.length)] }
  else
    { data := s.data.drop (min k s.rem),
      rem := s.rem - (s.data.take (min k s.rem)).length,
      alive := s.alive, upActive := s.upActive,
      cancels := s.cancels, completes := s.completes,
      lateCompletes := s.lateCompletes,
      emitted := s.emitted ++ s.data.take (min k s.rem),
      log := s.log ++ [(min k s.rem, s.emitted.length)] }

/-- Runs a schedule of downstream requests against `of(data) >> take(n)`. -/
def takeOfRun (n : Nat) (data : List T) (ds : List Nat) : TakeOfState T :=
  ds.foldl takeOfRequest (takeOfInit n data)

/-- take_op::instance::cancel (lines 514-517): cancels the upstream
subscription and deletes the instance; no downstream event is delivered. -/
def takeOfCancel (s : TakeOfState T) : TakeOfState T :=
  if s.alive = false then s
  else { s with alive := false, upActive := false, cancels := s.cancels + 1 }

/-- Invariant of `of(d0) >> take(n)` after requests totalling `c` demand:
either the composed operator is still live — it has emitted exactly the
first `c` items, its remaining count is `n - c`, no terminal event has
happened — or it is dead, having emitted exactly the first `min n |d0|`
items, delivered exactly one complete, cancelled upstream exactly when
`n ≤ |d0|`, and hit the post-deletion late complete exactly when
`n = |d0|`.  Every upstream request respects the `n - emitted` cap. -/
def TakeInv (n : Nat) (d0 : List T) (c : Nat) (s : TakeOfState T) : Prop :=
  (∀ p ∈ s.log, p.1 + p.2 ≤ n) ∧
  ((s.alive = true ∧ s.upActive = true ∧
    s.emitted = d0.take c ∧ s.emitted.length = c ∧
    s.data = d0.drop c ∧ s.rem = n - c ∧
    c < n ∧ (c < d0.length ∨ c = 0) ∧
    s.completes = 0 ∧ s.cancels = 0 ∧ s.lateCompletes = 0)
   ∨
   (s.alive = false ∧ s.upActive = false ∧
    s.emitted = d0.take (min n d0.length) ∧
    s.completes = 1 ∧
    s.cancels = (if n ≤ d0.length then 1 else 0) ∧
    s.lateCompletes = (if n = d0.length then 1 else 0)))

/-! ### range publisher
(streams_impl.h: range_impl lines 139-151, over generator_publisher)

The range generator function (lines 142-150) is `for (i = 0; i < n && *t <
to; ++i, ++*t) sink.on_next(*t);  if (*t == to) sink.on_complete();`.
Unlike `of`, the drain loop need not terminate: when `t > to` and demand is
positive, every generator call emits nothing and does not complete, so the
`while (_active && _outstanding > 0)` loop (line 198) spins forever.  The
drain loop is therefore modelled with fuel; `none` means the loop did not
finish within the given fuel (it never finishes, for any fuel, exactly in
the spinning situation). -/

/-- One call of the range generator's emission loop (streams_impl.h lines
143-145): emits while the counter is below `to` and demand remains.
Returns the new counter value and the emitted items. -/
def rangeGenLoop (hi : Int) : Int → Nat → Int × List Int
  | t, 0 => (t, [])
  | t, Nat.succ n =>
    if t < hi then
      let r := rangeGenLoop hi (t + 1) n
      (r.1, t :: r.2)
    else (t, [])

/-- Drain loop of the generator subscription (lines 191-206) running the
range generator: while active and outstanding demand is positive, call the
generator; the generator completes exactly when the counter equals `to`
(line 147).  Result: `some (counter, completed)` and the emissions, or
`none` with the emissions so far when the fuel runs out. -/
def rangeDrain (hi : Int) : Nat → Int → Nat → Option (Int × Bool) × List Int
  | 0, _, _ => (none, [])
  | Nat.succ fuel, t, outstanding =>
    if outstanding = 0 then (some (t, false), [])
    else
      let g := rangeGenLoop hi t outstanding
      if g.1 = hi then (some (g.1, true), g.2)
      else
        let r := rangeDrain hi fuel g.1 (outstanding - g.2.length)
        (r.1, g.2 ++ r.2)

/-- Runs a schedule of downstream requests against `range(lo, hi)` starting
from counter `t`.  After a completed drain the subscription is gone, so
later requests are ignored.  Between requests the outstanding demand is
zero whenever the drain finished without completing. -/
def rangeRun (hi : Int) (fuel : Nat) : Int → List Nat → Option (Int × Bool) × List Int
  | t, [] => (some (t, false), [])
  | t, k :: ks =>
    match rangeDrain hi fuel t k with
    | (none, emitted) => (none, emitted)
    | (some (t', true), emitted) => (some (t', true), emitted)
    | (some (t', false), emitted) =>
      let r := rangeRun hi fuel t' ks
      (r.1, emitted ++ r.2)

/-- Completion is reachable for `range(lo, hi)` under the request schedule
`ds` when some amount of drain-loop fuel makes the run end completed. -/
def RangeCompletes (lo hi : Int) (ds : List Nat) : Prop :=
  ∃ fuel t', (rangeRun hi fuel lo ds).1 = some (t', true)

/-- Integers `lo, lo+1, ..., lo+len-1`: the expected output of range. -/
def intRange (lo : Int) (len : Nat) : List Int :=
  (List.range len).map (fun i : Nat => lo + (i : Int))

/-! ### do_finally operator (streams_impl.h: do_finally_op lines 546-595)

The instance forwards on_next (line 562).  on_error forwards the error,
runs `_fn`, deletes itself (lines 564-568); on_complete forwards complete,
runs `_fn`, deletes itself (lines 570-574); cancel cancels upstream, runs
`_fn`, deletes itself (lines 583-587) and delivers nothing downstream. -/

/-- Terminal path of a subscription routed through do_finally. -/
inductive TermPath (E : Type) where
  | complete
  | error (e : E)
  | cancel

/-- Downstream events observable below do_finally. -/
inductive DownEv (T E : Type) where
  | next (t : T)
  | complete
  | error (e : E)

/-- Observable effects of one do_finally subscription lifetime. -/
structure FinallyResult where
  fnCalls : Nat
  upCancels : Nat
  released : Nat
deriving DecidableEq

/-- Processes a do_finally subscription that sees `xs` items and then one
terminal path, transcribing do_finally_op::instance (lines 551-592):
downstream events plus the effect counters. -/
def doFinallyRun (xs : List T) (term : TermPath E) : List (DownEv T E) × FinallyResult :=
  (xs.map .next ++
     (match term with
      | .complete => [DownEv.complete]
      | .error e => [DownEv.error e]
      | .cancel => []),
   match term with
   | .complete => { fnCalls := 1, upCancels := 0, released := 1 }
   | .error _ => { fnCalls := 1, upCancels := 0, released := 1 }
   | .cancel => { fnCalls := 1, upCancels := 1, released := 1 })

/-- Predicate for a terminal downstream event. -/
def DownEv.isTerminal : DownEv T E → Bool
  | .next _ => false
  | .complete => true
  | .error _ => true

/-! ### map operator (streams_impl.h: map_op lines 267-315)

The instance forwards each item through `_fn` (line 286).  on_error and
on_complete forward and delete the instance (lines 288-296); cancel
(lines 306-309) cancels the upstream subscription and deletes the
instance, delivering nothing downstream. -/

/-- Observable effects of one map_op::instance lifetime. -/
structure MapResult where
  upCancels : Nat
  released : Nat
deriving DecidableEq

/-- Processes a map(g) subscription that sees `xs` items and then one
terminal path, transcribing map_op::instance (lines 284-309): items are
forwarded through `g`; complete and error are forwarded; cancel cancels
upstream and is silent downstream; every path releases the instance. -/
def mapRun (g : S → U) (xs : List S) (term : TermPath E) :
    List (DownEv U E) × MapResult :=
  (xs.map (fun x => DownEv.next (g x)) ++
     (match term with
      | .complete => [DownEv.complete]
      | .error e => [DownEv.error e]
      | .cancel => []),
   match term with
   | .complete => { upCancels := 0, released := 1 }
   | .error _ => { upCancels := 0, released := 1 }
   | .cancel => { upCancels := 1, released := 1 })

/-! ### subscribe-time behaviour of the primitive publishers

empty_publisher::subscribe (line 107) calls `s.on_complete()` only;
error_publisher::subscribe (line 114) calls `s.on_error(...)` only;
generator_publisher::subscribe (lines 238-242) calls `s.on_subscribe(...)`
only; async_publisher_impl::subscribe (lines 96-100) first runs the user
init function — whose out-of-band emissions are all dropped because
outstanding demand is still zero — and then calls `s.on_subscribe(...)`. -/

/-- Events a subscriber can observe. -/
inductive SubscribeEv where
  | onSubscribe
  | onNext
  | onComplete
  | onError
deriving DecidableEq

/-- empty_publisher::subscribe (streams_impl.h line 107). -/
def emptySubscribeEvents : List SubscribeEv := [.onComplete]

/-- error_publisher::subscribe (streams_impl.h line 114). -/
def errorSubscribeEvents : List SubscribeEv := [.onError]

/-- generator_publisher::subscribe (streams_impl.h lines 238-242). -/
def generatorSubscribeEvents : List SubscribeEv := [.onSubscribe]

/-- async_publisher_impl::subscribe (streams_impl.h lines 96-100): the init
function may attempt `k` emissions before on_subscribe is delivered; each
goes through the sub's on_next with outstanding = 0 (lines 80-87). -/
def asyncSubscribeEvents (k : Nat) : List SubscribeEv :=
  List.replicate (asyncDelivered (List.replicate k .emit)) .onNext ++ [.onSubscribe]

/-! ### flat_map operator (streams_impl.h: flat_map_op lines 317-466)

The instance keeps `_source` (upstream), `_fwd_sub` (inner subscription,
null or one), `_outstanding`, `_active`, `_source_complete`, and the drain
guard `_in_drain`.  `request(n)` adds demand and drains (lines 380-383).
The drain loop (lines 385-414): while active with positive demand, if no
inner subscription is active it either finishes (upstream complete, lines
392-395) or requests exactly one upstream item (line 399) — the upstream
on_next (lines 353-358) subscribes the inner publisher built from the item;
otherwise it forwards the outstanding demand to the inner subscription
(line 406), whose on_next events decrement `_outstanding` (lines 440-443)
and whose on_complete clears `_fwd_sub` (lines 422-425, 450-453).

Upstream and the inner publishers are synchronous `of`-style sequences: an
upstream request(1) delivers the next item immediately (together with the
upstream complete when it was the last), and an inner request(d) delivers
min(d, remaining) items, completing when the inner data runs out.  The
trace records each upstream request, inner subscribe, inner complete,
downstream next and downstream complete in order. -/

/-- Trace events of the flat_map instance. -/
inductive FMEv (T : Type) where
  | upReq
  | innerSub
  | innerDone
  | next (t : T)
  | done

/-- State of flat_map_op::instance over a synchronous upstream: remaining
upstream items, whether upstream already completed, the active inner
subscription's remaining items (at most one inner, as _fwd_sub is a single
pointer), outstanding downstream demand, and the _active flag. -/
structure FMState (S T : Type) where
  upstream : List S
  srcComplete : Bool
  inner : Option (List T)
  outstanding : Nat
  active : Bool

/-- Drain loop of flat_map_op::instance (lines 385-414) specialised to
synchronous upstream and inner publishers.  Returns the state at
quiescence and the trace emitted. -/
def fmDrain (f : S → List T) (s : FMState S T) : FMState S T × List (FMEv T) :=
  if s.active = false ∨ s.outstanding = 0 then (s, [])
  else
    match h : s.inner with
    | some ts =>
      if ts.length ≤ s.outstanding then
        let r := fmDrain f { s with inner := none,
                                    outstanding := s.outstanding - ts.length }
        (r.1, (ts.map .next) ++ FMEv.innerDone :: r.2)
      else
        ({ s with inner := some (ts.drop s.outstanding), outstanding := 0 },
         (ts.take s.outstanding).map .next)
    | none =>
      if s.srcComplete then
        ({ s with active := false }, [.done])
      else
        match hu : s.upstream with
        | [] => ({ s with srcComplete := true, active := false }, [.upReq, .done])
        | x :: rest =>
          let r := fmDrain f { s with upstream := rest, srcComplete := rest.isEmpty,
                                      inner := some (f x) }
          (r.1, FMEv.upReq :: FMEv.innerSub :: r.2)
  termination_by (s.upstream.length, (if s.inner.isSome then 1 else 0) + s.outstanding)
  decreasing_by
  · apply Prod.Lex.right
    simp [h]
    omega
  · apply Prod.Lex.left
    simp [hu]

/-- flat_map_op::instance::request (lines 380-383): adds demand, drains.
Requests arriving after the terminal event are outside the protocol and
ignored. -/
def fmRequest (f : S → List T) (s : FMState S T) (k : Nat) : FMState S T × List (FMEv T) :=
  if s.active then fmDrain f { s with outstanding := s.outstanding + k }
  else (s, [])

/-- Runs a schedule of downstream requests against flat_map. -/
def fmRun (f : S → List T) : FMState S T → List Nat → FMState S T × List (FMEv T)
  | s, [] => (s, [])
  | s, k :: ks =>
    let r1 := fmRequest f s k
    let r2 := fmRun f r1.1 ks
    (r2.1, r1.2 ++ r2.2)

/-- State of `of(xs) >> flat_map(f)` right after subscribing. -/
def fmInit (xs : List S) : FMState S T :=
  { upstream := xs, srcComplete := false, inner := none, outstanding := 0,
    active := true }

/-- Scans a flat_map trace keeping the number of currently active inner
subscriptions, rejecting (`none`) any point where a second inner
subscription starts while one is active, an inner completes while none is
active, or an upstream item is requested while an inner subscription is
still active. -/
def fmCheck : Nat → List (FMEv T) → Option Nat
  | opn, [] => some opn
  | opn, .innerSub :: es => if opn = 0 then fmCheck 1 es else none
  | opn, .innerDone :: es => if opn = 1 then fmCheck 0 es else none
  | opn, .upReq :: es => if opn = 0 then fmCheck 0 es else none
  | opn, .next _ :: es => fmCheck opn es
  | opn, .done :: es => fmCheck opn es

/-- Counts downstream next events in a flat_map trace. -/
def fmNextCount : List (FMEv T) → Nat
  | [] => 0
  | .next _ :: es => 1 + fmNextCount es
  | .upReq :: es => fmNextCount es
  | .innerSub :: es => fmNextCount es
  | .innerDone :: es => fmNextCount es
  | .done :: es => fmNextCount es

/-- Number of active inner subscriptions encoded in a flat_map state. -/
def fmOpen (s : FMState S T) : Nat :=
  if s.inner.isSome then 1 else 0

/-- Observable effects of flat_map_op::instance::cancel. -/
structure FmCancelEffect where
  upstreamCancels : Nat
  innerCancels : Nat
  downstreamEvents : Nat
  releases : Nat
deriving DecidableEq

/-- flat_map_op::instance::cancel (streams_impl.h lines 416-420):
`_source->cancel(); if (_fwd_sub) _fwd_sub->cancel(); delete this;` —
cancels the upstream subscription, cancels the inner subscription exactly
when one is active, releases the instance, and delivers nothing
downstream. -/
def fmCancel (s : FMState S T) : FMState S T × FmCancelEffect :=
  ({ s with active := false },
   { upstreamCancels := 1,
     innerCancels := if s.inner.isSome then 1 else 0,
     downstreamEvents := 0,
     releases := 1 })

end Streams

open Streams RtmClient BotRuntime

/-! ## Helper lemmas -/

theorem asyncRun_le (es : List AsyncEv) :
    ∀ o : Int, 0 ≤ o → (asyncRun o es).2 ≤ o.toNat + asyncRequested es := by
  induction es with
  | nil => intro o _; simp [asyncRun, asyncRequested]
  | cons e es ih =>
    intro o ho
    cases e with
    | req n =>
      have h := ih (o + n) (by positivity)
      simp [asyncRun, asyncStep, asyncRequested]
      omega
    | emit =>
      simp only [asyncRun, asyncStep, asyncRequested]
      by_cases hle : o ≤ 0
      · have h := ih o ho
        simp [hle]
        omega
      · have h := ih (o - 1) (by omega)
        simp [hle]
        omega

theorem asyncRequested_replicate_emit (k : Nat) :
    asyncRequested (List.replicate k .emit) = 0 := by
  induction k with
  | zero => rfl
  | succ k ih => simpa [List.replicate, asyncRequested] using ih

theorem asyncDelivered_init_zero (k : Nat) :
    asyncDelivered (List.replicate k .emit) = 0 := by
  have h := asyncRun_le (List.replicate k .emit) 0 le_rfl
  rw [asyncRequested_replicate_emit] at h
  simpa [asyncDelivered] using h

theorem ofRequest_emitted_le (s : OfState T) (k : Nat) :
    (ofRequest s k).emitted.length ≤ s.emitted.length + k := by
  unfold ofRequest
  split
  · omega
  · simp only [List.length_append, List.length_take]
    omega

theorem ofRun_emitted_le (ds : List Nat) :
    ∀ s : OfState T, (ds.foldl ofRequest s).emitted.length ≤ s.emitted.length + ds.sum := by
  induction ds with
  | nil => intro s; simp
  | cons k ks ih =>
    intro s
    have h1 := ofRequest_emitted_le s k
    have h2 := ih (ofRequest s k)
    simp only [List.foldl_cons, List.sum_cons]
    omega

/-! ## Claims -/

/-- C1: for every publisher subscribed exactly once and every interleaving of
request(n) calls, the number of delivered on_next events never exceeds the
accumulated requested demand; dropped items do not consume demand.  First
conjunct: the async publisher subscription over every event interleaving
(every prefix of an interleaving is itself an interleaving, so this is the
at-any-point property).  Second conjunct: the generator publisher running
the `of` generator under every request schedule. -/
theorem c1_delivered_le_requested :
    (∀ es : List AsyncEv, asyncDelivered es ≤ asyncRequested es) ∧
    (∀ (T : Type) (data : List T) (ds : List Nat),
       (ofRun data ds).emitted.length ≤ ds.sum) := by
  constructor
  · intro es
    have h := asyncRun_le es 0 le_rfl
    simpa [asyncDelivered] using h
  · intro T data ds
    have h := ofRun_emitted_le ds (ofInit data)
    simpa [ofRun, ofInit] using h

/-- C4: for every subscription routed through do_finally(f), the function f
runs exactly once on any terminal path — upstream complete, upstream error,
or downstream cancel — and never twice; the instance is released exactly
once, cancel propagates upstream exactly once and delivers no downstream
terminal event. -/
theorem c4_do_finally_once (T E : Type) (xs : List T) (term : TermPath E) :
    (doFinallyRun xs term).2.fnCalls = 1 ∧
    (doFinallyRun xs term).2.released = 1 ∧
    ((doFinallyRun xs term).1.filter DownEv.isTerminal).length =
      (match term with | .cancel => 0 | _ => 1) ∧
    (doFinallyRun xs term).2.upCancels =
      (match term with | .cancel => 1 | _ => 0) := by
  have hmap : ∀ ys : List T,
      (ys.map (DownEv.next (E := E))).filter DownEv.isTerminal = [] := by
    intro ys
    induction ys with
    | nil => rfl
    | cons y ys ih => simpa [DownEv.isTerminal] using ih
  cases term <;>
    simp [doFinallyRun, List.filter_append, hmap, DownEv.isTerminal]

/-- C9 counterexample: the claim says start() on a running client and stop()
on a stopped client leave the state unchanged and do not fail; in the code
both paths fail the BOOST_VERIFY precondition (rtmclient.cpp lines 189 and
217), modelled as `none`. -/
theorem c9_counterexample :
    clientStart ClientState.running = none ∧
    clientStop ClientState.stopped = none := by
  exact ⟨rfl, rfl⟩

/-- C9 amended: start() succeeds only from Stopped (moving to Running) and
stop() only from Running (moving to PendingStopped); every other invocation
fails the BOOST_VERIFY precondition instead of being an idempotent no-op. -/
theorem c9_start_stop_preconditions :
    clientStart ClientState.stopped = some ClientState.running ∧
    clientStart ClientState.running = none ∧
    clientStart ClientState.pendingStopped = none ∧
    clientStop ClientState.running = some ClientState.pendingStopped ∧
    clientStop ClientState.stopped = none ∧
    clientStop ClientState.pendingStopped = none := by
  exact ⟨rfl, rfl, rfl, rfl, rfl, rfl⟩

/-- C5 counterexample: the claim says every primitive publisher invokes
on_subscribe exactly once before any other event; empty_publisher::subscribe
(streams_impl.h line 107) delivers on_complete without ever invoking
on_subscribe (and error_publisher likewise delivers on_error). -/
theorem c5_counterexample :
    emptySubscribeEvents.count SubscribeEv.onSubscribe = 0 ∧
    emptySubscribeEvents = [SubscribeEv.onComplete] ∧
    errorSubscribeEvents.count SubscribeEv.onSubscribe = 0 := by
  exact ⟨rfl, rfl, rfl⟩

/-- C5 amended: the generator-based publishers (of, range, generate) and the
async publisher invoke on_subscribe exactly once, before any next, complete
or error event reaches the subscriber (for async, every emission attempted
by the init function before on_subscribe is dropped because demand is
zero); empty() instead delivers complete immediately and error(cond)
delivers the error immediately, neither ever invoking on_subscribe. -/
theorem c5_subscribe_events (k : Nat) :
    generatorSubscribeEvents = [SubscribeEv.onSubscribe] ∧
    asyncSubscribeEvents k = [SubscribeEv.onSubscribe] ∧
    emptySubscribeEvents = [SubscribeEv.onComplete] ∧
    errorSubscribeEvents = [SubscribeEv.onError] := by
  refine ⟨rfl, ?_, rfl, rfl⟩
  simp [asyncSubscribeEvents, asyncDelivered_init_zero]

/-- C6 counterexample: the claim says cancel() is supported and succeeds on
every subscription produced by the kernel, including the async publisher's;
async_publisher_impl::sub::cancel (streams_impl.h line 78) is
BOOST_ASSERT_MSG(false, "not implemented"). -/
theorem c6_counterexample : asyncSubCancel ≠ CancelOutcome.ok := by
  decide

/-- C6 amended: for the generator subscription and the operator
subscriptions — take on its composed model, do_finally and map on their
instance models, flat_map on its instance state — cancel() cancels the
upstream subscription where one exists (for flat_map also the inner
subscription exactly when one is active), releases the instance exactly
once, and delivers no downstream complete to the canceller; the async
publisher's subscription is the exception — its cancel() is not
implemented and fails an assertion. -/
theorem c6_cancel_effects (T E : Type) (s : TakeOfState T) (g : OfState T)
    (xs : List T) (gm : T → T) (fs : FMState T T) :
    (takeOfCancel s).completes = s.completes ∧
    (takeOfCancel s).emitted = s.emitted ∧
    (takeOfCancel s).cancels = s.cancels + (if s.alive then 1 else 0) ∧
    (takeOfCancel s).alive = false ∧
    (ofCancel g).completes = g.completes ∧
    (ofCancel g).emitted = g.emitted ∧
    (ofCancel g).active = false ∧
    ((doFinallyRun xs (TermPath.cancel : TermPath E)).1.filter DownEv.isTerminal).length = 0 ∧
    (doFinallyRun xs (TermPath.cancel : TermPath E)).2.upCancels = 1 ∧
    (doFinallyRun xs (TermPath.cancel : TermPath E)).2.fnCalls = 1 ∧
    (doFinallyRun xs (TermPath.cancel : TermPath E)).2.released = 1 ∧
    ((mapRun gm xs (TermPath.cancel : TermPath E)).1.filter DownEv.isTerminal).length = 0 ∧
    (mapRun gm xs (TermPath.cancel : TermPath E)).2.upCancels = 1 ∧
    (mapRun gm xs (TermPath.cancel : TermPath E)).2.released = 1 ∧
    (fmCancel fs).2.upstreamCancels = 1 ∧
    (fmCancel fs).2.innerCancels = fmOpen fs ∧
    (fmCancel fs).2.downstreamEvents = 0 ∧
    (fmCancel fs).2.releases = 1 ∧
    (fmCancel fs).1.active = false := by
  have hmap : (xs.map (DownEv.next (E := E))).filter DownEv.isTerminal = [] := by
    induction xs with
    | nil => rfl
    | cons y ys ih => simpa [DownEv.isTerminal] using ih
  have hmap2 : ((xs.map fun x => DownEv.next (E := E) (gm x)).filter
      DownEv.isTerminal) = [] := by
    induction xs with
    | nil => rfl
    | cons y ys ih => simpa [DownEv.isTerminal] using ih
  cases hs : s.alive <;>
    simp [takeOfCancel, ofCancel, doFinallyRun, mapRun, fmCancel, fmOpen, hs,
      List.filter_append, hmap, hmap2]

/-! ## Bot runtime lemmas -/

theorem sendMessage_fold_published (channel : String) (l : List BotMessage) :
    ∀ env : BotEnv, (l.foldl (sendMessage channel) env).published =
      env.published ++ amendedFlushPublishes channel l := by
  induction l with
  | nil => intro env; simp [amendedFlushPublishes]
  | cons m l ih =>
    intro env
    simp only [List.foldl_cons, ih, sendMessage, amendedFlushPublishes,
      List.append_assoc]

theorem sendMessage_fold_buffer (channel : String) (l : List BotMessage) :
    ∀ env : BotEnv, (l.foldl (sendMessage channel) env).buffer = env.buffer := by
  induction l with
  | nil => intro env; rfl
  | cons m l ih => intro env; simp only [List.foldl_cons, ih, sendMessage]

theorem sendMessage_fold_rc (channel : String) (l : List BotMessage) :
    ∀ (env : BotEnv) (x : Nat), (l.foldl (sendMessage channel) env).rc x =
      env.rc x - ((l.map BotMessage.data).count x : Int) := by
  induction l with
  | nil => intro env x; simp
  | cons m l ih =>
    intro env x
    simp only [List.foldl_cons, ih, sendMessage, rcAdj, List.map_cons,
      List.count_cons]
    by_cases hx : x = m.data
    · simp [hx]
      push_cast
      ring
    · have : ¬ (m.data == x) = true := by simpa [beq_iff_eq] using fun h => hx h.symm
      simp [hx, this]

theorem storeAll_rc (ms : List (BotMessageKind × Nat)) :
    ∀ (env : BotEnv) (x : Nat), (storeAll env ms).rc x =
      env.rc x + ((ms.map Prod.snd).count x : Int) := by
  induction ms with
  | nil => intro env x; simp [storeAll]
  | cons km ms ih =>
    intro env x
    simp only [storeAll, List.foldl_cons] at ih ⊢
    rw [ih]
    simp only [storeBotMessage, rcAdj, List.map_cons, List.count_cons]
    by_cases hx : x = km.2
    · simp [hx]
      push_cast
      ring
    · have : ¬ (km.2 == x) = true := by simpa [beq_iff_eq] using fun h => hx h.symm
      simp [hx, this]

theorem storeAll_buffer (ms : List (BotMessageKind × Nat)) :
    ∀ env : BotEnv, (storeAll env ms).buffer =
      env.buffer ++ ms.map (fun km => BotMessage.mk km.1 km.2) := by
  induction ms with
  | nil => intro env; simp [storeAll]
  | cons km ms ih =>
    intro env
    simp only [storeAll, List.foldl_cons] at ih ⊢
    rw [ih]
    simp [storeBotMessage]

/-- C7 counterexample: the claim says every buffered message is published to
the channel formed by appending its kind's suffix, "/control" for CONTROL;
flushing a buffer holding one CONTROL message publishes nothing, because
the switch in bot_environment::send_message (video_bot.cpp lines 183-190)
has no CONTROL case, while the claim demands a publish to "c/control". -/
theorem c7_counterexample :
    (sendMessages "c" ⟨fun _ => 0, [⟨.control, 7⟩], []⟩).published = [] ∧
    specFlushPublishes "c" [⟨.control, 7⟩] = [("c" ++ controlChannelSuffix, 7)] ∧
    ([] : List (String × Nat)) ≠ [("c" ++ controlChannelSuffix, 7)] := by
  refine ⟨rfl, rfl, by simp⟩

/-- C7 amended: after each frame callback the runtime flushes the context's
message buffer in insertion order, publishing each ANALYSIS message to
channel + "/analysis" and each DEBUG message to channel + "/debug", dropping
CONTROL messages from the publish stream (the switch has no CONTROL case),
and leaves the buffer empty. -/
theorem c7_flush_publishes (channel : String) (env : BotEnv) :
    (sendMessages channel env).published =
      env.published ++ amendedFlushPublishes channel env.buffer ∧
    (sendMessages channel env).buffer = [] := by
  constructor
  · simp only [sendMessages]
    exact sendMessage_fold_published channel env.buffer env
  · rfl

/-- C10: one buffer-and-flush cycle increments each message's cbor
reference count exactly once when appending (store_bot_message,
video_bot.cpp lines 202-207) and decrements it exactly once during the
post-callback flush (send_message, line 191), leaving every reference
count as it started and the buffer empty. -/
theorem c10_refcount_balance (channel : String) (rc : Nat → Int)
    (ms : List (BotMessageKind × Nat)) (x : Nat) :
    (storeAll ⟨rc, [], []⟩ ms).rc x = rc x + ((ms.map Prod.snd).count x : Int) ∧
    (frameCycle channel ⟨rc, [], []⟩ ms).rc x = rc x ∧
    (frameCycle channel ⟨rc, [], []⟩ ms).buffer = [] := by
  refine ⟨storeAll_rc ms ⟨rc, [], []⟩ x, ?_, rfl⟩
  simp only [frameCycle, sendMessages]
  have hbuf := storeAll_buffer ms ⟨rc, [], []⟩
  have hrc := storeAll_rc ms ⟨rc, [], []⟩ x
  rw [sendMessage_fold_rc channel _ _ x, hbuf, hrc]
  simp only [List.nil_append, List.map_map]
  have h2 : ms.map (BotMessage.data ∘ fun km => BotMessage.mk km.1 km.2) =
      ms.map Prod.snd := by
    simp [Function.comp]
  rw [h2]
  omega

/-! ## Range lemmas -/

theorem intRange_length (lo : Int) (n : Nat) : (intRange lo n).length = n := by
  unfold intRange
  rw [List.length_map, List.length_range]

theorem intRange_cons (lo : Int) (n : Nat) :
    intRange lo (n + 1) = lo :: intRange (lo + 1) n := by
  unfold intRange
  rw [List.range_succ_eq_map, List.map_cons, List.map_map]
  congr 1
  · simp
  · apply List.map_congr_left
    intro a _
    simp only [Function.comp_apply]
    push_cast
    ring

theorem intRange_append (lo : Int) (a b : Nat) :
    intRange lo (a + b) = intRange lo a ++ intRange (lo + a) b := by
  induction b with
  | zero => simp [intRange]
  | succ b ih =>
    have h1 : a + (b + 1) = (a + b) + 1 := by omega
    rw [h1]
    rw [show intRange lo (a + b + 1) =
          intRange lo (a + b) ++ [lo + (a + b : Nat)] by
        simp [intRange, List.range_succ]]
    rw [ih]
    rw [show intRange (lo + a) (b + 1) =
          intRange (lo + a) b ++ [lo + a + (b : Nat)] by
        simp [intRange, List.range_succ]]
    simp only [List.append_assoc]
    congr 2
    push_cast
    ring_nf

theorem rangeGenLoop_spec (hi : Int) (n : Nat) :
    ∀ t : Int, t ≤ hi →
      rangeGenLoop hi t n =
        (t + (min n (hi - t).toNat : Nat), intRange t (min n (hi - t).toNat)) := by
  induction n with
  | zero => intro t _; simp [rangeGenLoop, intRange]
  | succ n ih =>
    intro t ht
    by_cases hlt : t < hi
    · have ih1 := ih (t + 1) (by omega)
      have hm : min (n + 1) (hi - t).toNat = min n (hi - (t + 1)).toNat + 1 := by
        omega
      rw [hm, intRange_cons]
      simp only [rangeGenLoop, if_pos hlt, ih1, Prod.mk.injEq]
      refine ⟨by push_cast; ring, trivial⟩
    · have hm : min (n + 1) (hi - t).toNat = 0 := by omega
      simp [rangeGenLoop, if_neg hlt, hm, intRange]

theorem rangeDrain_zero_demand (hi : Int) (fuel : Nat) (t : Int) (h : 1 ≤ fuel) :
    rangeDrain hi fuel t 0 = (some (t, false), []) := by
  obtain ⟨f, rfl⟩ : ∃ f, fuel = f + 1 := ⟨fuel - 1, by omega⟩
  simp [rangeDrain]

theorem rangeDrain_completes (hi : Int) (fuel : Nat) (t : Int) (k : Nat)
    (hf : 2 ≤ fuel) (ht : t ≤ hi) (hk : k ≠ 0) (hge : (hi - t).toNat ≤ k) :
    rangeDrain hi fuel t k = (some (hi, true), intRange t (hi - t).toNat) := by
  obtain ⟨f, rfl⟩ : ∃ f, fuel = f + 2 := ⟨fuel - 2, by omega⟩
  have hg := rangeGenLoop_spec hi k t ht
  have hmin : min k (hi - t).toNat = (hi - t).toNat := by omega
  rw [hmin] at hg
  have hend : t + ((hi - t).toNat : Int) = hi := by omega
  simp only [rangeDrain, if_neg hk, hg]
  rw [if_pos (by omega : t + (((hi - t).toNat : Nat) : Int) = hi)]
  exact congrArg (fun z => (some (z, true), intRange t (hi - t).toNat)) hend

theorem rangeDrain_partial (hi : Int) (fuel : Nat) (t : Int) (k : Nat)
    (hf : 2 ≤ fuel) (ht : t ≤ hi) (hk : k ≠ 0) (hlt : k < (hi - t).toNat) :
    rangeDrain hi fuel t k = (some (t + k, false), intRange t k) := by
  obtain ⟨f, rfl⟩ : ∃ f, fuel = f + 2 := ⟨fuel - 2, by omega⟩
  have hg := rangeGenLoop_spec hi k t ht
  have hmin : min k (hi - t).toNat = k := by omega
  rw [hmin] at hg
  simp only [rangeDrain, if_neg hk, hg]
  rw [if_neg (by omega : ¬ t + ((k : Nat) : Int) = hi)]
  rw [intRange_length]
  have hzero : k - k = 0 := by omega
  rw [hzero]
  simp [rangeDrain]

theorem rangeDrain_spin (hi : Int) :
    ∀ (fuel : Nat) (t : Int) (k : Nat), hi < t → k ≠ 0 →
      rangeDrain hi fuel t k = (none, []) := by
  intro fuel
  induction fuel with
  | zero => intro t k _ _; rfl
  | succ f ih =>
    intro t k hgt hk
    obtain ⟨j, rfl⟩ : ∃ j, k = j + 1 := ⟨k - 1, by omega⟩
    have hg : rangeGenLoop hi t (j + 1) = (t, []) := by
      simp [rangeGenLoop, if_neg (by omega : ¬ t < hi)]
    simp only [rangeDrain, if_neg hk, hg]
    rw [if_neg (by omega : ¬ t = hi)]
    simp only [List.length_nil, Nat.sub_zero]
    rw [ih t (j + 1) hgt hk]
    simp

theorem minArith1 (hi t : Int) (k S : Nat) (hlt : k < (hi - t).toNat) :
    min (k + S) (hi - t).toNat = k + min S (hi - (t + (k : Int))).toNat := by
  omega

theorem minArith2 (hi t : Int) (k S : Nat) (hlt : k < (hi - t).toNat)
    (h : (hi - (t + (k : Int))).toNat ≤ S) : (hi - t).toNat ≤ k + S := by
  omega

theorem minArith3 (hi t : Int) (k S : Nat) (hlt : k < (hi - t).toNat)
    (h1 : (hi - t).toNat ≤ k + S) : (hi - (t + (k : Int))).toNat ≤ S := by
  omega

theorem minArith4 (hi t : Int) (k : Nat) (hlt : k < (hi - t).toNat) :
    t + (k : Int) < hi := by
  omega

theorem rangeRun_spec (hi : Int) (fuel : Nat) (hf : 2 ≤ fuel) :
    ∀ (ds : List Nat) (t : Int), t ≤ hi →
      (rangeRun hi fuel t ds).2 = intRange t (min ds.sum (hi - t).toNat) ∧
      ((∃ t', (rangeRun hi fuel t ds).1 = some (t', true)) ↔
        ((hi - t).toNat ≤ ds.sum ∧ (t < hi ∨ ∃ k ∈ ds, 0 < k))) := by
  intro ds
  induction ds with
  | nil =>
    intro t ht
    constructor
    · simp [rangeRun, intRange]
    · constructor
      · rintro ⟨t', h⟩
        simp [rangeRun] at h
      · rintro ⟨h1, h2⟩
        simp only [List.sum_nil, Nat.le_zero] at h1
        rcases h2 with h2 | h2
        · omega
        · simp at h2
  | cons k ks ih =>
    intro t ht
    by_cases hk : k = 0
    · subst hk
      rw [show rangeRun hi fuel t (0 :: ks) =
            ((rangeRun hi fuel t ks).1, [] ++ (rangeRun hi fuel t ks).2) by
          simp [rangeRun, rangeDrain_zero_demand hi fuel t (by omega)]]
      obtain ⟨iha, ihb⟩ := ih t ht
      refine ⟨by simpa using iha, ?_⟩
      rw [show ((0 : Nat) :: ks).sum = ks.sum by simp]
      constructor
      · rintro ⟨t', h⟩
        have hres := ihb.mp ⟨t', h⟩
        rcases hres.2 with hh | ⟨j, hj, hjp⟩
        · exact ⟨hres.1, Or.inl hh⟩
        · exact ⟨hres.1, Or.inr ⟨j, List.mem_cons_of_mem _ hj, hjp⟩⟩
      · rintro ⟨h1, h2⟩
        apply ihb.mpr
        refine ⟨h1, ?_⟩
        rcases h2 with h2 | ⟨j, hj, hjpos⟩
        · exact Or.inl h2
        · rcases List.mem_cons.mp hj with rfl | hmem
          · omega
          · exact Or.inr ⟨j, hmem, hjpos⟩
    · by_cases hge : (hi - t).toNat ≤ k
      · rw [show rangeRun hi fuel t (k :: ks) =
              (some (hi, true), intRange t (hi - t).toNat) by
            simp [rangeRun, rangeDrain_completes hi fuel t k hf ht hk hge]]
        constructor
        · have : min (k :: ks).sum (hi - t).toNat = (hi - t).toNat := by
            simp only [List.sum_cons]; omega
          rw [this]
        · constructor
          · intro _
            refine ⟨by simp only [List.sum_cons]; omega, Or.inr ⟨k, by simp, by omega⟩⟩
          · intro _
            exact ⟨hi, rfl⟩
      · have hlt : k < (hi - t).toNat := by omega
        rw [show rangeRun hi fuel t (k :: ks) =
              ((rangeRun hi fuel (t + k) ks).1,
               intRange t k ++ (rangeRun hi fuel (t + k) ks).2) by
            simp [rangeRun, rangeDrain_partial hi fuel t k hf ht hk hlt]]
        have htk4 := minArith4 hi t k hlt
        have htk : t + (k : Int) ≤ hi := le_of_lt htk4
        obtain ⟨iha, ihb⟩ := ih (t + k) htk
        constructor
        · rw [iha]
          have harith := minArith1 hi t k ks.sum hlt
          rw [List.sum_cons, harith, intRange_append]
        · have hth : t < hi := by
            have hk0 : (0 : Int) ≤ (k : Int) := Int.natCast_nonneg k
            omega
          constructor
          · rintro ⟨t', h⟩
            have hres2 := ihb.mp ⟨t', h⟩
            refine ⟨?_, Or.inl hth⟩
            rw [List.sum_cons]
            exact minArith2 hi t k ks.sum hlt hres2.1
          · rintro ⟨h1, _⟩
            apply ihb.mpr
            rw [List.sum_cons] at h1
            exact ⟨minArith3 hi t k ks.sum hlt h1, Or.inl htk4⟩

/-- C8 counterexample: the claim says range(from, to) with from ≥ to emits
nothing and completes; for from = 1, to = 0 the drain loop never completes —
each generator call emits nothing (the counter is already past `to`) and the
exhaustion check `*t == to` never fires, so the while loop spins for ever
(no amount of fuel makes the run finish, let alone complete). -/
theorem c8_counterexample : ¬ RangeCompletes 1 0 [1] := by
  rintro ⟨fuel, t', h⟩
  rw [show rangeRun 0 fuel 1 [1] = (none, []) by
        simp [rangeRun, rangeDrain_spin 0 fuel 1 1 (by omega) (by omega)]] at h
  simp at h

/-- C8 amended: for from ≤ to, range(from, to) emits exactly the integers of
[from, from + min(total demand, to − from)) in increasing order, and it
completes exactly when the cumulative demand covers to − from and at least
one request is positive (for from = to this means the first positive request
completes an empty emission); for from > to the publisher emits nothing and
never completes (see the counterexample). -/
theorem c8_range_amended (lo hi : Int) (fuel : Nat) (ds : List Nat)
    (hle : lo ≤ hi) (hf : 2 ≤ fuel) :
    (rangeRun hi fuel lo ds).2 = intRange lo (min ds.sum (hi - lo).toNat) ∧
    ((∃ t', (rangeRun hi fuel lo ds).1 = some (t', true)) ↔
      ((hi - lo).toNat ≤ ds.sum ∧ (lo < hi ∨ ∃ k ∈ ds, 0 < k))) := by
  exact rangeRun_spec hi fuel hf ds lo hle

/-- C8 witness: range(0, 3) with requests [2, 2] emits [0, 1, 2] and
completes. -/
theorem c8_range_amended_witness :
    ((0 : Int) ≤ 3 ∧ 2 ≤ 2) ∧
    ((rangeRun 3 2 0 [2, 2]).2 = intRange 0 (min ([2, 2] : List Nat).sum ((3 : Int) - 0).toNat) ∧
      ((∃ t', (rangeRun 3 2 0 [2, 2]).1 = some (t', true)) ↔
        (((3 : Int) - 0).toNat ≤ ([2, 2] : List Nat).sum ∧
          ((0 : Int) < 3 ∨ ∃ k ∈ ([2, 2] : List Nat), 0 < k)))) ∧
    (rangeRun 3 2 0 [2, 2]).2 = [0, 1, 2] := by
  refine ⟨⟨by norm_num, le_refl 2⟩,
    c8_range_amended 0 3 2 [2, 2] (by norm_num) (le_refl 2), by decide⟩

/-! ## take lemmas -/

theorem takeInv_step {T : Type} (n : Nat) (d0 : List T) (c k : Nat)
    (s : TakeOfState T) (h : TakeInv n d0 c s) :
    TakeInv n d0 (c + k) (takeOfRequest s k) := by
  obtain ⟨hlog, hcase⟩ := h
  unfold takeOfRequest
  rcases hcase with ⟨ha, hup, hem, hlen, hdata, hrem, hcn, hcl, hcp, hcc, hlc⟩ | hdead
  · have hcL : c ≤ d0.length := by rcases hcl with h' | h' <;> omega
    rw [if_neg (by rw [ha]; simp)]
    have he_len : (s.data.take (min k s.rem)).length =
        min (min k s.rem) (d0.length - c) := by
      rw [hdata, List.length_take, List.length_drop]
    have hrest : s.data.drop (min k s.rem) = d0.drop (c + min k s.rem) := by
      rw [hdata, List.drop_drop]
    have hemit : s.emitted ++ s.data.take (min k s.rem) =
        d0.take (c + min k s.rem) := by
      rw [hem, hdata, ← List.take_add]
    have ha2 : min k s.rem = min k (n - c) := by rw [hrem]
    split_ifs with g2 g3 g4 g5
    · -- forwarded demand is zero: k must be 0 since rem = n - c >= 1
      have hk0 : k = 0 := by omega
      unfold TakeInv
      constructor
      · intro p hp
        rcases List.mem_append.mp hp with hp1 | hp2
        · exact hlog p hp1
        · have : p = (min k s.rem, s.emitted.length) := List.mem_singleton.mp hp2
          rw [this]
          simp only [hlen]
          omega
      · left
        subst hk0
        simp only [Nat.add_zero]
        exact ⟨ha, hup, hem, hlen, hdata, hrem, hcn, hcl, hcp, hcc, hlc⟩
    · -- take's count exhausted: cancel + complete + late complete (data ran out)
      have hfin : min k s.rem = n - c ∧ n - c ≤ d0.length - c := by
        rw [he_len, ha2] at g3
        rw [hrem] at g3 ⊢
        omega
      have hnL : n ≤ d0.length := by omega
      have hca : c + min k s.rem = n := by omega
      -- the inner ite chose late complete: data exhausted exactly here
      rw [hrest, hca] at g4
      have hLn : d0.length ≤ n := by
        rw [List.isEmpty_iff] at g4
        have := List.drop_eq_nil_iff.mp g4
        omega
      have hEq : n = d0.length := by omega
      unfold TakeInv
      constructor
      · intro p hp
        rcases List.mem_append.mp hp with hp1 | hp2
        · exact hlog p hp1
        · have : p = (min k s.rem, s.emitted.length) := List.mem_singleton.mp hp2
          rw [this]
          simp only [hlen]
          omega
      · right
        refine ⟨rfl, rfl, ?_, ?_, ?_, ?_⟩
        · simp only [hemit, hca]
          rw [min_eq_left hnL]
        · simp only [hcp]
        · simp only [hcc, if_pos hnL]
        · simp only [hlc, if_pos hEq]
    · -- take's count exhausted, upstream data remains: cancel + complete, no late
      have hfin : min k s.rem = n - c ∧ n - c ≤ d0.length - c := by
        rw [he_len, ha2] at g3
        rw [hrem] at g3 ⊢
        omega
      have hnL : n ≤ d0.length := by omega
      have hca : c + min k s.rem = n := by omega
      rw [hrest, hca] at g4
      have hLn : ¬ d0.length ≤ n := by
        intro hle
        apply g4
        rw [List.isEmpty_iff]
        exact List.drop_eq_nil_iff.mpr hle
      have hNe : ¬ n = d0.length := by omega
      unfold TakeInv
      constructor
      · intro p hp
        rcases List.mem_append.mp hp with hp1 | hp2
        · exact hlog p hp1
        · have : p = (min k s.rem, s.emitted.length) := List.mem_singleton.mp hp2
          rw [this]
          simp only [hlen]
          omega
      · right
        refine ⟨rfl, rfl, ?_, ?_, ?_, ?_⟩
        · simp only [hemit, hca]
          rw [min_eq_left hnL]
        · simp only [hcp]
        · simp only [hcc, if_pos hnL]
        · simp only [hlc, if_neg hNe]
    · -- upstream exhausted below take's count: complete forwarded, no cancel
      rw [hrest] at g5
      have hLca : d0.length ≤ c + min k s.rem := by
        rw [List.isEmpty_iff] at g5
        have := List.drop_eq_nil_iff.mp g5
        omega
      have hLn : d0.length < n := by
        rw [he_len] at g3
        rw [hrem] at g3
        omega
      unfold TakeInv
      constructor
      · intro p hp
        rcases List.mem_append.mp hp with hp1 | hp2
        · exact hlog p hp1
        · have : p = (min k s.rem, s.emitted.length) := List.mem_singleton.mp hp2
          rw [this]
          simp only [hlen]
          omega
      · right
        refine ⟨rfl, rfl, ?_, ?_, ?_, ?_⟩
        · simp only [hemit]
          rw [List.take_of_length_le hLca,
            min_eq_right (le_of_lt hLn), List.take_length]
        · simp only [hcp]
        · simp only [hcc, if_neg (by omega : ¬ n ≤ d0.length)]
        · simp only [hlc, if_neg (by omega : ¬ n = d0.length)]
    · -- both live: the batch was absorbed in full
      rw [hrest] at g5
      have hcaL : c + min k s.rem < d0.length := by
        rw [List.isEmpty_iff] at g5
        have hne := g5
        by_contra hcon
        apply hne
        exact List.drop_eq_nil_iff.mpr (by omega)
      have hlen2 : (s.data.take (min k s.rem)).length = min k s.rem := by
        rw [he_len]
        omega
      have hak : min k s.rem = k := by
        rw [hlen2] at g3
        rw [hrem] at g3 ⊢
        omega
      unfold TakeInv
      constructor
      · intro p hp
        rcases List.mem_append.mp hp with hp1 | hp2
        · exact hlog p hp1
        · have : p = (min k s.rem, s.emitted.length) := List.mem_singleton.mp hp2
          rw [this]
          simp only [hlen]
          rw [hrem] at g3
          omega
      · left
        refine ⟨ha, hup, ?_, ?_, ?_, ?_, ?_, ?_, hcp, hcc, hlc⟩
        · rw [hemit, hak]
        · rw [List.length_append, hlen, hlen2, hak]
        · rw [hrest, hak]
        · dsimp only
          rw [hlen2, hak, hrem]
          omega
        · rw [hlen2, hak] at g3
          rw [hrem] at g3
          omega
        · left
          rw [hak] at hcaL
          exact hcaL
  · rw [if_pos hdead.1]
    exact ⟨hlog, Or.inr hdead⟩

theorem takeInv_run {T : Type} (n : Nat) (d0 : List T) (ds : List Nat) :
    ∀ (c : Nat) (s : TakeOfState T), TakeInv n d0 c s →
      TakeInv n d0 (c + ds.sum) (ds.foldl takeOfRequest s) := by
  induction ds with
  | nil => intro c s h; simpa using h
  | cons k ks ih =>
    intro c s h
    have h1 := takeInv_step n d0 c k s h
    have h2 := ih (c + k) _ h1
    rw [List.sum_cons, ← Nat.add_assoc]
    simpa using h2

theorem takeInv_init {T : Type} (n : Nat) (d0 : List T) (h : 1 ≤ n) :
    TakeInv n d0 0 (takeOfInit n d0) := by
  refine ⟨by simp [takeOfInit], Or.inl ?_⟩
  refine ⟨rfl, rfl, by simp [takeOfInit], by simp [takeOfInit],
    by simp [takeOfInit], by simp [takeOfInit], h, Or.inr rfl, rfl, rfl, rfl⟩

/-- C2 counterexample: the claim covers every n ≥ 0 and says take(n)
delivers exactly min(n, L) items, then exactly one complete, and cancels
upstream exactly once; for n = 0 over a length-3 upstream with demand
[1, 1], take forwards demand min(k, 0) = 0 upstream for every request
(take_op::instance::request, streams_impl.h lines 508-512), so no item,
no complete and no cancel is ever produced. -/
theorem c2_counterexample :
    (takeOfRun 0 ([1, 2, 3] : List Nat) [1, 1]).completes = 0 ∧
    (takeOfRun 0 ([1, 2, 3] : List Nat) [1, 1]).cancels = 0 ∧
    (takeOfRun 0 ([1, 2, 3] : List Nat) [1, 1]).emitted = [] ∧
    (takeOfRun 0 ([1, 2, 3] : List Nat) [1, 1]).alive = true := by
  refine ⟨rfl, rfl, rfl, rfl⟩

/-- C2 amended: for n ≥ 1 and an upstream of length L, once cumulative
demand reaches max(1, min(n, L)), take(n) over of(data) has delivered
exactly the first min(n, L) items and exactly one complete to its sink and
is released; it cancelled upstream exactly once when n ≤ L (when n > L the
upstream completed on its own and no cancel happens); when n = L exactly,
the upstream's exhaustion check additionally delivers one complete to the
already deleted take instance (counted in lateCompletes: in the C++ this
is a use-after-free); each upstream request never exceeds n minus the
number of items already emitted.  For n = 0 no event is ever delivered
(see the counterexample). -/
theorem c2_take_amended (T : Type) (n : Nat) (data : List T) (ds : List Nat)
    (h1 : 1 ≤ n) (h2 : max 1 (min n data.length) ≤ ds.sum) :
    (takeOfRun n data ds).emitted = data.take (min n data.length) ∧
    (takeOfRun n data ds).completes = 1 ∧
    (takeOfRun n data ds).cancels = (if n ≤ data.length then 1 else 0) ∧
    (takeOfRun n data ds).lateCompletes = (if n = data.length then 1 else 0) ∧
    (takeOfRun n data ds).alive = false ∧
    (∀ p ∈ (takeOfRun n data ds).log, p.1 + p.2 ≤ n) := by
  have hrun := takeInv_run n data ds 0 _ (takeInv_init n data h1)
  rw [Nat.zero_add] at hrun
  obtain ⟨hlog, hcase⟩ := hrun
  rcases hcase with ⟨_, _, _, _, _, _, hcn, hcl, _, _, _⟩ | hdead
  · exfalso
    rcases hcl with hlt | hz <;> omega
  · obtain ⟨hal, _, hemd, hcpd, hccd, hlcd⟩ := hdead
    exact ⟨hemd, hcpd, hccd, hlcd, hal, hlog⟩

/-- C2 witness: take(2) over of([10, 20, 30]) with one request of 5 emits
[10, 20], completes once and cancels upstream once. -/
theorem c2_take_amended_witness :
    (1 ≤ 2 ∧ max 1 (min 2 ([10, 20, 30] : List Nat).length) ≤ ([5] : List Nat).sum) ∧
    ((takeOfRun 2 ([10, 20, 30] : List Nat) [5]).emitted =
        ([10, 20, 30] : List Nat).take (min 2 ([10, 20, 30] : List Nat).length) ∧
      (takeOfRun 2 ([10, 20, 30] : List Nat) [5]).completes = 1 ∧
      (takeOfRun 2 ([10, 20, 30] : List Nat) [5]).cancels =
        (if 2 ≤ ([10, 20, 30] : List Nat).length then 1 else 0) ∧
      (takeOfRun 2 ([10, 20, 30] : List Nat) [5]).lateCompletes =
        (if 2 = ([10, 20, 30] : List Nat).length then 1 else 0) ∧
      (takeOfRun 2 ([10, 20, 30] : List Nat) [5]).alive = false ∧
      (∀ p ∈ (takeOfRun 2 ([10, 20, 30] : List Nat) [5]).log, p.1 + p.2 ≤ 2)) ∧
    (takeOfRun 2 ([10, 20, 30] : List Nat) [5]).emitted = [10, 20] := by
  refine ⟨⟨by norm_num, by decide⟩,
    c2_take_amended Nat 2 [10, 20, 30] [5] (by norm_num) (by decide), by decide⟩

/-! ## flat_map lemmas -/

theorem fmDrain_guard {S T : Type} (f : S → List T) (s : FMState S T)
    (hg : s.active = false ∨ s.outstanding = 0) :
    fmDrain f s = (s, []) := by
  conv_lhs => rw [fmDrain]
  rw [if_pos hg]

theorem fmDrain_innerDone {S T : Type} (f : S → List T) (s : FMState S T)
    (ts : List T) (hg : ¬(s.active = false ∨ s.outstanding = 0))
    (hin : s.inner = some ts) (hle : ts.length ≤ s.outstanding) :
    fmDrain f s =
      ((fmDrain f { s with inner := none,
                           outstanding := s.outstanding - ts.length }).1,
       (ts.map .next) ++ FMEv.innerDone ::
         (fmDrain f { s with inner := none,
                             outstanding := s.outstanding - ts.length }).2) := by
  conv_lhs => rw [fmDrain]
  rw [if_neg hg]
  split
  next ts2 h2 =>
    rw [hin] at h2
    injection h2 with h3
    subst h3
    rw [if_pos hle]
  next h2 =>
    rw [hin] at h2
    exact absurd h2 (by simp)

theorem fmDrain_innerPart {S T : Type} (f : S → List T) (s : FMState S T)
    (ts : List T) (hg : ¬(s.active = false ∨ s.outstanding = 0))
    (hin : s.inner = some ts) (hnle : ¬ ts.length ≤ s.outstanding) :
    fmDrain f s =
      ({ s with inner := some (ts.drop s.outstanding), outstanding := 0 },
       (ts.take s.outstanding).map .next) := by
  conv_lhs => rw [fmDrain]
  rw [if_neg hg]
  split
  next ts2 h2 =>
    rw [hin] at h2
    injection h2 with h3
    subst h3
    rw [if_neg hnle]
  next h2 =>
    rw [hin] at h2
    exact absurd h2 (by simp)

theorem fmDrain_srcDone {S T : Type} (f : S → List T) (s : FMState S T)
    (hg : ¬(s.active = false ∨ s.outstanding = 0))
    (hin : s.inner = none) (hsc : s.srcComplete = true) :
    fmDrain f s = ({ s with active := false }, [.done]) := by
  conv_lhs => rw [fmDrain]
  rw [if_neg hg]
  split
  next ts2 h2 =>
    rw [hin] at h2
    exact absurd h2 (by simp)
  next h2 =>
    rw [if_pos hsc]

theorem fmDrain_upEmpty {S T : Type} (f : S → List T) (s : FMState S T)
    (hg : ¬(s.active = false ∨ s.outstanding = 0))
    (hin : s.inner = none) (hsc : ¬ s.srcComplete = true)
    (hup : s.upstream = []) :
    fmDrain f s =
      ({ s with srcComplete := true, active := false }, [.upReq, .done]) := by
  conv_lhs => rw [fmDrain]
  rw [if_neg hg]
  split
  next ts2 h2 =>
    rw [hin] at h2
    exact absurd h2 (by simp)
  next h2 =>
    rw [if_neg hsc]
    split
    next h3 => rfl
    next x rest h3 =>
      rw [hup] at h3
      exact absurd h3 (by simp)

theorem fmDrain_upNext {S T : Type} (f : S → List T) (s : FMState S T)
    (x : S) (rest : List S) (hg : ¬(s.active = false ∨ s.outstanding = 0))
    (hin : s.inner = none) (hsc : ¬ s.srcComplete = true)
    (hup : s.upstream = x :: rest) :
    fmDrain f s =
      ((fmDrain f { s with upstream := rest, srcComplete := rest.isEmpty,
                           inner := some (f x) }).1,
       FMEv.upReq :: FMEv.innerSub ::
         (fmDrain f { s with upstream := rest, srcComplete := rest.isEmpty,
                             inner := some (f x) }).2) := by
  conv_lhs => rw [fmDrain]
  rw [if_neg hg]
  split
  next ts2 h2 =>
    rw [hin] at h2
    exact absurd h2 (by simp)
  next h2 =>
    rw [if_neg hsc]
    split
    next h3 =>
      rw [hup] at h3
      exact absurd h3 (by simp)
    next y rest2 h3 =>
      rw [hup] at h3
      injection h3 with h4 h5
      subst h4
      subst h5
      rfl

theorem fmCheck_nexts {T : Type} (l : List T) (es : List (FMEv T)) (o : Nat) :
    fmCheck o (l.map FMEv.next ++ es) = fmCheck o es := by
  induction l with
  | nil => rfl
  | cons t l ih => simpa [fmCheck] using ih

theorem fmCheck_append {T : Type} (a : List (FMEv T)) :
    ∀ (b : List (FMEv T)) (o : Nat),
      fmCheck o (a ++ b) = (fmCheck o a).bind (fun o2 => fmCheck o2 b) := by
  induction a with
  | nil => intro b o; simp [fmCheck]
  | cons e es ih =>
    intro b o
    cases e with
    | next t => simpa [fmCheck] using ih b o
    | done => simpa [fmCheck] using ih b o
    | upReq =>
      by_cases ho : o = 0
      · simp [fmCheck, ho, ih]
      · simp [fmCheck, ho]
    | innerSub =>
      by_cases ho : o = 0
      · simp [fmCheck, ho, ih]
      · simp [fmCheck, ho]
    | innerDone =>
      by_cases ho : o = 1
      · simp [fmCheck, ho, ih]
      · simp [fmCheck, ho]

theorem fmNextCount_nexts {T : Type} (l : List T) (es : List (FMEv T)) :
    fmNextCount (l.map FMEv.next ++ es) = l.length + fmNextCount es := by
  induction l with
  | nil => simp [fmNextCount]
  | cons t l ih =>
    simp [fmNextCount, ih]
    omega

theorem fmOpen_some {S T : Type} (s : FMState S T) (ts : List T)
    (h : s.inner = some ts) : fmOpen s = 1 := by
  simp [fmOpen, h]

theorem fmOpen_none {S T : Type} (s : FMState S T)
    (h : s.inner = none) : fmOpen s = 0 := by
  simp [fmOpen, h]

theorem fmDrain_check {S T : Type} (f : S → List T) (s : FMState S T) :
    fmCheck (fmOpen s) (fmDrain f s).2 = some (fmOpen (fmDrain f s).1) := by
  induction s using fmDrain.induct (f := f) with
  | case1 x hg =>
    rw [fmDrain_guard f x hg]
    rfl
  | case2 x hg ts hin hle ih =>
    rw [fmDrain_innerDone f x ts hg hin hle]
    rw [fmOpen_some x ts hin]
    dsimp only
    rw [fmCheck_nexts]
    simp only [fmCheck, if_pos rfl]
    exact ih
  | case3 x hg ts hin hnle =>
    rw [fmDrain_innerPart f x ts hg hin hnle]
    rw [fmOpen_some x ts hin]
    dsimp only
    have h2 := fmCheck_nexts (ts.take x.outstanding) ([] : List (FMEv T)) 1
    rw [List.append_nil] at h2
    rw [h2]
    rfl
  | case4 x hg hin hsc =>
    rw [fmDrain_srcDone f x hg hin hsc]
    rw [fmOpen_none x hin]
    simp [fmCheck, fmOpen, hin]
  | case5 x hg hin hsc hup =>
    rw [fmDrain_upEmpty f x hg hin hsc hup]
    rw [fmOpen_none x hin]
    simp [fmCheck, fmOpen, hin]
  | case6 x hg hin hsc y rest hup ih =>
    rw [fmDrain_upNext f x y rest hg hin hsc hup]
    rw [fmOpen_none x hin]
    dsimp only
    simp only [fmCheck, if_pos rfl]
    exact ih

theorem fmDrain_next_le {S T : Type} (f : S → List T) (s : FMState S T) :
    fmNextCount (fmDrain f s).2 + (fmDrain f s).1.outstanding ≤ s.outstanding := by
  induction s using fmDrain.induct (f := f) with
  | case1 x hg =>
    rw [fmDrain_guard f x hg]
    simp [fmNextCount]
  | case2 x hg ts hin hle ih =>
    rw [fmDrain_innerDone f x ts hg hin hle]
    dsimp only
    rw [fmNextCount_nexts]
    simp only [fmNextCount] at ih ⊢
    omega
  | case3 x hg ts hin hnle =>
    rw [fmDrain_innerPart f x ts hg hin hnle]
    dsimp only
    have h2 := fmNextCount_nexts (ts.take x.outstanding) ([] : List (FMEv T))
    rw [List.append_nil] at h2
    rw [h2]
    simp only [fmNextCount, List.length_take]
    omega
  | case4 x hg hin hsc =>
    rw [fmDrain_srcDone f x hg hin hsc]
    simp [fmNextCount]
  | case5 x hg hin hsc hup =>
    rw [fmDrain_upEmpty f x hg hin hsc hup]
    simp [fmNextCount]
  | case6 x hg hin hsc y rest hup ih =>
    rw [fmDrain_upNext f x y rest hg hin hsc hup]
    dsimp only
    simp only [fmNextCount] at ih ⊢
    omega

theorem fmRequest_check {S T : Type} (f : S → List T) (s : FMState S T) (k : Nat) :
    fmCheck (fmOpen s) (fmRequest f s k).2 = some (fmOpen (fmRequest f s k).1) := by
  unfold fmRequest
  split_ifs with ha
  · have h := fmDrain_check f { s with outstanding := s.outstanding + k }
    have ho : fmOpen { s with outstanding := s.outstanding + k } = fmOpen s := rfl
    rw [ho] at h
    exact h
  · rfl

theorem fmRequest_next_le {S T : Type} (f : S → List T) (s : FMState S T) (k : Nat) :
    fmNextCount (fmRequest f s k).2 + (fmRequest f s k).1.outstanding ≤
      s.outstanding + k := by
  unfold fmRequest
  split_ifs with ha
  · have h := fmDrain_next_le f { s with outstanding := s.outstanding + k }
    simpa using h
  · simp [fmNextCount]

theorem fmRun_check {S T : Type} (f : S → List T) (ds : List Nat) :
    ∀ s : FMState S T,
      fmCheck (fmOpen s) (fmRun f s ds).2 = some (fmOpen (fmRun f s ds).1) := by
  induction ds with
  | nil => intro s; rfl
  | cons k ks ih =>
    intro s
    simp only [fmRun]
    rw [fmCheck_append]
    rw [fmRequest_check f s k]
    exact ih (fmRequest f s k).1

theorem fmRun_next_le {S T : Type} (f : S → List T) (ds : List Nat) :
    ∀ s : FMState S T,
      fmNextCount (fmRun f s ds).2 + (fmRun f s ds).1.outstanding ≤
        s.outstanding + ds.sum := by
  induction ds with
  | nil => intro s; simp [fmRun, fmNextCount]
  | cons k ks ih =>
    intro s
    simp only [fmRun]
    have hsplit : ∀ a b : List (FMEv T), fmNextCount (a ++ b) =
        fmNextCount a + fmNextCount b := by
      intro a b
      induction a with
      | nil => simp [fmNextCount]
      | cons e es ihe => cases e <;> simp [fmNextCount, ihe] <;> omega
    rw [hsplit]
    have h1 := fmRequest_next_le f s k
    have h2 := ih (fmRequest f s k).1
    simp only [List.sum_cons]
    omega

/-- C3: in flat_map(f) over any upstream sequence, any item-to-inner-sequence
function and any downstream demand schedule, the event trace is accepted by
the checker that (i) rejects a second inner subscription while one is
active — so at most one inner subscription is active at any time — and
(ii) rejects any upstream request while an inner subscription is active —
so the next upstream item is requested only after the inner publisher of
the current item completed; and the number of downstream next events never
exceeds the accumulated downstream demand. -/
theorem c3_flat_map_invariants (S T : Type) (f : S → List T) (xs : List S)
    (ds : List Nat) :
    fmCheck 0 (fmRun f (fmInit xs) ds).2 =
      some (fmOpen (fmRun f (fmInit xs) ds).1) ∧
    fmNextCount (fmRun f (fmInit xs) ds).2 ≤ ds.sum := by
  constructor
  · have h := fmRun_check f ds (fmInit xs)
    have h0 : fmOpen (fmInit (T := T) xs) = 0 := rfl
    rw [h0] at h
    exact h
  · have h := fmRun_next_le f ds (fmInit xs)
    have h0 : (fmInit (T := T) xs).outstanding = 0 := rfl
    rw [h0] at h
    omega
